import Mathlib

/-!
Verification development for the `json-parser` repository: a shallow
embedding of its tokenizer (`src/utils/lexer.rs`), recursive-descent parser
and value model (`src/utils/parser.rs`), and schema/validator engine
(`src/utils/validator.rs`), together with theorems settling the behavioural
claims about it.

Modelling conventions:
* Rust `String`/`&str` values are Lean `String`s; the lexer works on the
  underlying `List Char` (the character iterator of the source).
* Rust `f64` payloads are modelled as exact rationals `ℚ`: every finite
  `f64` is a rational, and the operations the code performs on them
  (comparison, `floor`, `ceil`, `round`) agree with the rational
  counterparts on finite values; `f64` rounding of large decimal literals
  is not modelled.
* `HashMap<String, V>` is modelled as a duplicate-free association list
  with the same insert/lookup semantics.
* Fallible Rust functions returning `Result<T, String>` become
  `Except String T`; the recursive-descent parser additionally carries
  fuel, with `none` meaning "fuel exhausted" (the Rust code's loops have
  no such bound; every theorem quantifies over or supplies enough fuel).
-/

/-! ## Character classes (Rust `char` predicates)

Rust's `char::is_numeric` tests membership in the Unicode general
categories Nd, Nl and No; `char::is_alphabetic` tests the Alphabetic
property; `char::is_whitespace` tests the White_Space property.  They are
modelled here by tables that are exact on every code point below U+0100
(ASCII and Latin-1); all inputs appearing in this development stay in that
range. -/

/-- Rust `char::is_whitespace`, exact below U+0100: ASCII whitespace
together with U+0085 (next line) and U+00A0 (no-break space). -/
def rustIsWhitespace (c : Char) : Bool :=
  (9 ≤ c.val && c.val ≤ 13) || c.val == 32 || c.val == 0x85 || c.val == 0xA0

/-- Rust `char::is_numeric`, exact below U+0100: ASCII digits together
with the Latin-1 numeric code points ² ³ ¹ ¼ ½ ¾. -/
def rustIsNumeric (c : Char) : Bool :=
  c.isDigit || c.val == 0xB2 || c.val == 0xB3 || c.val == 0xB9 ||
    c.val == 0xBC || c.val == 0xBD || c.val == 0xBE

/-- Rust `char::is_alphabetic`, exact below U+0100: ASCII letters together
with ª µ º and the accented Latin-1 letters (excluding × and ÷). -/
def rustIsAlphabetic (c : Char) : Bool :=
  c.isAlpha || c.val == 0xAA || c.val == 0xB5 || c.val == 0xBA ||
    (0xC0 ≤ c.val && c.val ≤ 0xFF && c.val != 0xD7 && c.val != 0xF7)

/-! ## Tokens and the lexer (`src/utils/lexer.rs`) -/

/-- `TokenKind` from `lexer.rs`. -/
inductive TokenKind where
  | QuotedString
  | Number
  | OpenBracket
  | CloseBracket
  | Colon
  | Comma
  | OpenParen
  | CloseParen
  | OpenBrace
  | CloseBrace
  | Keyword
deriving DecidableEq

/-- `Token` from `lexer.rs`: a kind with an optional text payload. -/
structure Token where
  kind : TokenKind
  text : Option String
deriving DecidableEq

/-- The derived `Debug` string of a `TokenKind` (used by `Token`'s `Debug`
impl when the token has no text). -/
def TokenKind.debugStr : TokenKind → String
  | .QuotedString => "QuotedString"
  | .Number => "Number"
  | .OpenBracket => "OpenBracket"
  | .CloseBracket => "CloseBracket"
  | .Colon => "Colon"
  | .Comma => "Comma"
  | .OpenParen => "OpenParen"
  | .CloseParen => "CloseParen"
  | .OpenBrace => "OpenBrace"
  | .CloseBrace => "CloseBrace"
  | .Keyword => "Keyword"

/-- `Token`'s `Debug` impl: print the text when present, else the kind. -/
def Token.debugStr (t : Token) : String :=
  match t.text with
  | some text => text
  | none => t.kind.debugStr

/-- `Lexer::consume_while`: take the maximal run of characters satisfying
the predicate, returning it together with the unconsumed remainder. -/
def consume_while (p : Char → Bool) : List Char → List Char × List Char
  | [] => ([], [])
  | c :: cs =>
    if p c then
      let r := consume_while p cs
      (c :: r.1, r.2)
    else ([], c :: cs)

/-- `Lexer::next_token`: classify the character at the cursor (in the
source's order of checks) and produce the next token with the remaining
characters, or `none` at end of input.  Whitespace is skipped. -/
def nextToken : List Char → Option (Token × List Char)
  | [] => none
  | c :: cs =>
    if c = '"' then
      let r := consume_while (fun ch => ch ≠ '"') cs
      -- the closing quote is consumed and discarded (a no-op at end of input)
      some (⟨.QuotedString, some (String.mk r.1)⟩, r.2.tail)
    else if rustIsNumeric c then
      let r := consume_while rustIsNumeric (c :: cs)
      some (⟨.Number, some (String.mk r.1)⟩, r.2)
    else if c = '(' then some (⟨.OpenParen, none⟩, cs)
    else if c = ')' then some (⟨.CloseParen, none⟩, cs)
    else if c = '[' then some (⟨.OpenBracket, none⟩, cs)
    else if c = ']' then some (⟨.CloseBracket, none⟩, cs)
    else if c = '\x7b' then some (⟨.OpenBrace, none⟩, cs)
    else if c = '\x7d' then some (⟨.CloseBrace, none⟩, cs)
    else if c = ':' then some (⟨.Colon, none⟩, cs)
    else if c = ',' then some (⟨.Comma, none⟩, cs)
    else if rustIsWhitespace c then nextToken cs
    else
      let r := consume_while rustIsAlphabetic (c :: cs)
      some (⟨.Keyword, some (String.mk r.1)⟩, r.2)

/-- `Lexer::lex`: collect tokens until `next_token` reports end of input.
Fuel-indexed; `none` means the fuel ran out before end of input was
reached (the Rust loop would still be running). -/
def lexF : Nat → List Char → Option (List Token)
  | 0, _ => none
  | n + 1, cs =>
    match nextToken cs with
    | none => some []
    | some (t, rest) => (lexF n rest).map (t :: ·)

/-! ## The value model (`src/utils/parser.rs`) -/

/-- `OrderedMap<V>` from `parser.rs`: a `HashMap` (modelled as a
duplicate-free association list with the same insert/lookup behaviour)
together with the list of keys in first-insertion order. -/
structure OrderedMap (V : Type) where
  order : List String
  map : List (String × V)
deriving DecidableEq

/-- `HashMap::insert` on the association-list model: replace the binding
if the key is present, otherwise add one. -/
def assocInsert {V : Type} (k : String) (v : V) : List (String × V) → List (String × V)
  | [] => [(k, v)]
  | (k', v') :: rest => if k' = k then (k, v) :: rest else (k', v') :: assocInsert k v rest

/-- `OrderedMap::new`. -/
def OrderedMap.new {V : Type} : OrderedMap V := ⟨[], []⟩

/-- `OrderedMap::insert`: append the key to the order list only when it is
not already bound, then insert into the map. -/
def OrderedMap.insert {V : Type} (m : OrderedMap V) (k : String) (v : V) : OrderedMap V :=
  { order := if (m.map.lookup k).isSome then m.order else m.order ++ [k]
    map := assocInsert k v m.map }

/-- `OrderedMap::get`. -/
def OrderedMap.get {V : Type} (m : OrderedMap V) (k : String) : Option V :=
  m.map.lookup k

/-- Modelled from the spec: `OrderedMap::iter`, used by the validator
engine but not present in `src/`, iterates the entries in first-insertion
order (the spec's "iteration order = first-insertion order", matching the
`Debug` impl in `parser.rs`, which walks `order` and looks each key up). -/
def OrderedMap.iter {V : Type} (m : OrderedMap V) : List (String × V) :=
  m.order.filterMap fun k => (m.map.lookup k).map fun v => (k, v)

/-- `JSONValue` from `parser.rs`.  The `f64` payload of `Number` is
modelled as an exact rational. -/
inductive JSONValue where
  | Object : OrderedMap JSONValue → JSONValue
  | Array : List JSONValue → JSONValue
  | String : String → JSONValue
  | Number : ℚ → JSONValue
  | Boolean : Bool → JSONValue
  | Null : JSONValue

/-! ## The parser (`src/utils/parser.rs`) -/

/-- The value of a decimal digit run. -/
def digitRunVal (cs : List Char) : Nat :=
  cs.foldl (fun acc c => acc * 10 + (c.toNat - '0'.toNat)) 0

/-- Rust `str::parse::<f64>` as invoked by `Parser::parse_value`, i.e. on
the text of a `Number` token (a nonempty maximal run of Unicode-numeric
characters).  On such texts the parse succeeds exactly when every
character is an ASCII digit, and the result is modelled as the exact
integer value (`f64` rounding of very long digit runs is not modelled).
Texts containing non-ASCII numeric characters such as `½` are rejected
with Rust's `ParseFloatError`, whose `to_string()` is
`"invalid float literal"`. -/
def rustParseF64 (s : String) : Option ℚ :=
  if s.toList ≠ [] ∧ s.toList.all Char.isDigit then some (digitRunVal s.toList : ℚ)
  else none

/-- `Parser` from `parser.rs`: the buffered lookahead token and the state
of the lazy lexer (its remaining characters). -/
structure Parser where
  current_token : Option Token
  chars : List Char

/-- `Parser::next_token`: pull the next token from the lexer into the
lookahead buffer. -/
def Parser.next_token (p : Parser) : Parser :=
  match nextToken p.chars with
  | some (t, rest) => ⟨some t, rest⟩
  | none => ⟨none, p.chars⟩

mutual

/-- `Parser::parse_value`: dispatch on the kind of the current token.
Fuel-indexed; `none` means the fuel ran out. -/
def parse_valueF : Nat → Parser → Option (Except String (JSONValue × Parser))
  | 0, _ => none
  | fuel + 1, p =>
    match p.current_token with
    | none => some (.error "Unexpected end of input")
    | some token =>
      match token.kind with
      | .OpenBrace => parse_objectF fuel p
      | .OpenBracket => parse_arrayF fuel p
      | .QuotedString => some (.ok (.String (token.text.getD ""), p.next_token))
      | .Number =>
        match rustParseF64 (token.text.getD "") with
        | some q => some (.ok (.Number q, p.next_token))
        | none => some (.error "invalid float literal")
      | .Keyword =>
        let value := token.text.getD ""
        let p' := p.next_token
        if value = "true" then some (.ok (.Boolean true, p'))
        else if value = "false" then some (.ok (.Boolean false, p'))
        else if value = "null" then some (.ok (.Null, p'))
        else some (.error ("Unknown keyword: " ++ value))
      | _ => some (.error ("Unexpected token: " ++ token.debugStr))

/-- `Parser::parse_object`: discard the current token (the source never
checks that it is `{`) and run the entry loop on an empty map. -/
def parse_objectF : Nat → Parser → Option (Except String (JSONValue × Parser))
  | 0, _ => none
  | fuel + 1, p => object_loopF fuel OrderedMap.new p.next_token

/-- The `while` loop of `Parser::parse_object`: at each entry either
finish on `}`, or read a quoted key, a colon and a value, insert the
entry, and continue past a `,` (or re-enter the loop on `}`). -/
def object_loopF : Nat → OrderedMap JSONValue → Parser →
    Option (Except String (JSONValue × Parser))
  | 0, _, _ => none
  | fuel + 1, object, p =>
    match p.current_token with
    | none => some (.error "Unexpected end of input")
    | some token =>
      if token.kind = .CloseBrace then some (.ok (.Object object, p.next_token))
      else if token.kind = .QuotedString then
        let key := token.text.getD ""
        let p1 := p.next_token
        match p1.current_token with
        | some t2 =>
          if t2.kind = .Colon then
            match parse_valueF fuel p1.next_token with
            | none => none
            | some (.error e) => some (.error e)
            | some (.ok (value, p2)) =>
              let object' := object.insert key value
              match p2.current_token with
              | some t3 =>
                if t3.kind = .Comma then object_loopF fuel object' p2.next_token
                else if t3.kind = .CloseBrace then object_loopF fuel object' p2
                else some (.error "Expected ',' or '\x7d' after object value")
              | none => some (.error "Expected ',' or '\x7d' after object value")
          else some (.error "Expected ':' after object key")
        | none => some (.error "Expected ':' after object key")
      else some (.error ("Unexpected token: " ++ token.debugStr))

/-- `Parser::parse_array`: discard the current `[` and run the element
loop on an empty vector. -/
def parse_arrayF : Nat → Parser → Option (Except String (JSONValue × Parser))
  | 0, _ => none
  | fuel + 1, p => array_loopF fuel [] p.next_token

/-- The `while` loop of `Parser::parse_array`. -/
def array_loopF : Nat → List JSONValue → Parser →
    Option (Except String (JSONValue × Parser))
  | 0, _, _ => none
  | fuel + 1, array, p =>
    match p.current_token with
    | none => some (.error "Unexpected end of input")
    | some token =>
      if token.kind = .CloseBracket then some (.ok (.Array array, p.next_token))
      else
        match parse_valueF fuel p with
        | none => none
        | some (.error e) => some (.error e)
        | some (.ok (value, p2)) =>
          let array' := array ++ [value]
          match p2.current_token with
          | some t3 =>
            if t3.kind = .Comma then array_loopF fuel array' p2.next_token
            else if t3.kind = .CloseBracket then array_loopF fuel array' p2
            else some (.error "Expected ',' or ']' in array")
          | none => some (.error "Expected ',' or ']' in array")

end

/-- `Parser::parse` (the `JSONParser::from` pipeline): start the lexer on
the input, load the first token, and parse the document root as an
object, discarding the final parser state. -/
def parseF (fuel : Nat) (input : List Char) : Option (Except String JSONValue) :=
  (parse_objectF fuel (Parser.next_token ⟨none, input⟩)).map (·.map (·.1))

/-! ## String and number operations used by the validator

Rust `str::trim`/`trim_start`/`trim_end` strip `char::is_whitespace`
characters; `str::to_lowercase`/`to_uppercase` apply the Unicode case
maps, modelled here character-wise by the ASCII case maps (exact on
ASCII); `f64::floor`/`ceil`/`round` (round half away from zero) are the
rational ones. -/

/-- Rust `str::trim_start`. -/
def rustTrimStart (s : String) : String :=
  String.mk (s.toList.dropWhile rustIsWhitespace)

/-- Rust `str::trim_end`. -/
def rustTrimEnd (s : String) : String :=
  String.mk ((s.toList.reverse.dropWhile rustIsWhitespace).reverse)

/-- Rust `str::trim` (both ends). -/
def rustTrim (s : String) : String := rustTrimEnd (rustTrimStart s)

/-- Rust `str::to_lowercase`, modelled character-wise (exact on ASCII). -/
def rustToLowercase (s : String) : String := String.mk (s.toList.map Char.toLower)

/-- Rust `str::to_uppercase`, modelled character-wise (exact on ASCII). -/
def rustToUppercase (s : String) : String := String.mk (s.toList.map Char.toUpper)

/-- `a` occurs as a leading block of `b`. -/
def listLeads : List Char → List Char → Bool
  | [], _ => true
  | _ :: _, [] => false
  | x :: xs, y :: ys => x == y && listLeads xs ys

/-- Rust `str::starts_with`. -/
def rustStartsWith (s pat : String) : Bool := listLeads pat.toList s.toList

/-- Rust `str::ends_with`. -/
def rustEndsWith (s pat : String) : Bool := listLeads pat.toList.reverse s.toList.reverse

/-- Helper for `rustContains`: does `needle` occur in `hay`? -/
def listContainsRun (needle : List Char) : List Char → Bool
  | [] => needle.isEmpty
  | c :: cs => listLeads needle (c :: cs) || listContainsRun needle cs

/-- Rust `str::contains` for a string pattern. -/
def rustContains (s pat : String) : Bool := listContainsRun pat.toList s.toList

/-- Rust `f64::floor` on the rational model. -/
def rustFloor (q : ℚ) : ℚ := (⌊q⌋ : ℚ)

/-- Rust `f64::ceil` on the rational model. -/
def rustCeil (q : ℚ) : ℚ := (⌈q⌉ : ℚ)

/-- Rust `f64::round` (round half away from zero) on the rational model. -/
def rustRound (q : ℚ) : ℚ := if 0 ≤ q then ((⌊q + 1/2⌋ : ℤ) : ℚ) else ((⌈q - 1/2⌉ : ℤ) : ℚ)

/-! ## The validator engine (`src/utils/validator.rs`) -/

/-- The `Validator` trait: the capability pair a boxed rule exposes. -/
structure Validator where
  validate : String → JSONValue → Except String Unit
  transform : String → JSONValue → Except String JSONValue

/-- An optional configured check: when the option is set and the value is
bad, fail with the message; otherwise continue with the rest of the
checks.  Mirrors the `if let Some(x) = ... { if bad { return Err } }`
blocks of `validator.rs`. -/
def failIf {α : Type} (o : Option α) (bad : α → Bool) (msg : α → String)
    (next : Except String Unit) : Except String Unit :=
  match o with
  | none => next
  | some a => if bad a then .error (msg a) else next

/-- `StringType` from `validator.rs`.  The source's `transform` field is
named `transformFn` here (in Lean it would clash with the trait method). -/
structure StringType where
  min_length : Option Nat
  max_length : Option Nat
  length : Option Nat
  starts_with : Option String
  ends_with : Option String
  includes : Option String
  trim : Bool
  trim_start : Bool
  trim_end : Bool
  lowercase : Bool
  uppercase : Bool
  transformFn : Option (String → String)

/-- `StringType::new`. -/
def StringType.new : StringType :=
  ⟨none, none, none, none, none, none, false, false, false, false, false, none⟩

/-- `<StringType as Validator>::validate`: the checks in source order,
first violation wins.  Rust `str::len` is the UTF-8 byte length. -/
def StringType.validate (t : StringType) (key : String) (v : JSONValue) :
    Except String Unit :=
  match v with
  | .String s =>
    failIf t.min_length (fun min => s.utf8ByteSize < min)
      (fun min => key ++ " is too short (min: " ++ toString min ++ ")")
    (failIf t.max_length (fun max => s.utf8ByteSize > max)
      (fun max => key ++ " is too long (max: " ++ toString max ++ ")")
    (failIf t.length (fun len => !(s.utf8ByteSize == len))
      (fun len => key ++ " is not the correct length (length: " ++ toString len ++ ")")
    (failIf t.starts_with (fun pat => !(rustStartsWith s pat))
      (fun pat => key ++ " does not start with '" ++ pat ++ "'")
    (failIf t.ends_with (fun pat => !(rustEndsWith s pat))
      (fun pat => key ++ " does not end with '" ++ pat ++ "'")
    (failIf t.includes (fun pat => !(rustContains s pat))
      (fun pat => key ++ " does not include '" ++ pat ++ "'")
    (.ok ()))))))
  | _ => .error ("Type of " ++ key ++ " mismatch, expected String")

/-- `<StringType as Validator>::transform`: the built-in actions in source
order, then the custom function. -/
def StringType.transform (t : StringType) (key : String) (v : JSONValue) :
    Except String JSONValue :=
  match v with
  | .String s =>
    let s1 := if t.trim then rustTrim s else s
    let s2 := if t.trim_start then rustTrimStart s1 else s1
    let s3 := if t.trim_end then rustTrimEnd s2 else s2
    let s4 := if t.lowercase then rustToLowercase s3 else s3
    let s5 := if t.uppercase then rustToUppercase s4 else s4
    let s6 := match t.transformFn with | some f => f s5 | none => s5
    .ok (.String s6)
  | _ => .error ("Type of " ++ key ++ " mismatch, expected String")

/-- `StringType::boxed`. -/
def StringType.boxed (t : StringType) : Validator := ⟨t.validate, t.transform⟩

/-- `NumberType` from `validator.rs` (custom `transform` field renamed as
in `StringType`). -/
structure NumberType where
  min : Option ℚ
  max : Option ℚ
  integer : Option Bool
  floor : Bool
  ceil : Bool
  round : Bool
  transformFn : Option (ℚ → ℚ)

/-- `NumberType::new`. -/
def NumberType.new : NumberType := ⟨none, none, none, false, false, false, none⟩

/-- `NumberType::gt`: configure the minimum. -/
def NumberType.gt (t : NumberType) (value : ℚ) : NumberType := { t with min := some value }

/-- `NumberType::lt`: configure the maximum. -/
def NumberType.lt (t : NumberType) (value : ℚ) : NumberType := { t with max := some value }

/-- `<NumberType as Validator>::validate`: the code fails on `n < min`,
on `n > max`, and (when `integer` is set) on a nonzero fractional part. -/
def NumberType.validate (t : NumberType) (key : String) (v : JSONValue) :
    Except String Unit :=
  match v with
  | .Number n =>
    failIf t.min (fun min => n < min)
      (fun min => key ++ " is too small (min: " ++ toString min ++ ")")
    (failIf t.max (fun max => n > max)
      (fun max => key ++ " is too large (max: " ++ toString max ++ ")")
    (failIf t.integer (fun integer => integer && !(n.den == 1))
      (fun _ => key ++ " is not an integer")
    (.ok ())))
  | _ => .error ("Type of " ++ key ++ " mismatch, expected Number")

/-- `<NumberType as Validator>::transform`. -/
def NumberType.transform (t : NumberType) (key : String) (v : JSONValue) :
    Except String JSONValue :=
  match v with
  | .Number n =>
    let t1 := if t.floor then rustFloor n else n
    let t2 := if t.ceil then rustCeil t1 else t1
    let t3 := if t.round then rustRound t2 else t2
    let t4 := match t.transformFn with | some f => f t3 | none => t3
    .ok (.Number t4)
  | _ => .error ("Type of " ++ key ++ " mismatch, expected Number")

/-- `NumberType::boxed`. -/
def NumberType.boxed (t : NumberType) : Validator := ⟨t.validate, t.transform⟩

/-- `ArrayType` from `validator.rs` (the source's `at` field is named
`at'` since `at` is reserved in Lean; `transform` renamed as above). -/
structure ArrayType where
  min_length : Option Nat
  max_length : Option Nat
  length : Option Nat
  empty : Option Bool
  every : Option Validator
  some : Option Validator
  at' : Option (Nat × Validator)
  truncate : Option Nat
  transformFn : Option (List JSONValue → List JSONValue)

/-- `ArrayType::new`. -/
def ArrayType.new : ArrayType := ⟨none, none, none, none, none, none, none, none, none⟩

/-- The `every` loop of `ArrayType::validate`: `rule.validate(key, item)?`
for each item in order. -/
def validateEvery (rule : Validator) (key : String) : List JSONValue → Except String Unit
  | [] => .ok ()
  | x :: xs =>
    match rule.validate key x with
    | .error e => .error e
    | .ok _ => validateEvery rule key xs

/-- Is the result a success? -/
def exceptIsOk {ε α : Type} : Except ε α → Bool
  | .ok _ => true
  | .error _ => false

/-- The `some`/`at` tail of `ArrayType::validate`.  When a `some` rule is
configured, the source returns `Ok(())` from the whole function as soon
as one item passes it (and `Err` if none does), so the `at` check only
ever runs when no `some` rule is configured. -/
def ArrayType.someAtCheck (t : ArrayType) (key : String) (arr : List JSONValue) :
    Except String Unit :=
  match t.some with
  | .some rule =>
    if arr.any (fun item => exceptIsOk (rule.validate key item)) then .ok ()
    else .error ("No items in the " ++ key ++ " match the rule")
  | .none =>
    match t.at' with
    | .some ir =>
      match arr[ir.1]? with
      | .some item => ir.2.validate key item
      | .none => .error ("In " ++ key ++ ", index " ++ toString ir.1 ++ " not found")
    | .none => .ok ()

/-- `<ArrayType as Validator>::validate`: length checks, `empty`, `every`,
then the `some`/`at` tail, in source order. -/
def ArrayType.validate (t : ArrayType) (key : String) (v : JSONValue) :
    Except String Unit :=
  match v with
  | .Array arr =>
    failIf t.min_length (fun min => arr.length < min)
      (fun min => key ++ " is too short (min: " ++ toString min ++ ")")
    (failIf t.max_length (fun max => arr.length > max)
      (fun max => key ++ " is too long (max: " ++ toString max ++ ")")
    (failIf t.length (fun len => !(arr.length == len))
      (fun len => key ++ " is not the correct length (length: " ++ toString len ++ ")")
    (failIf t.empty (fun empty => empty && arr.isEmpty)
      (fun _ => key ++ " is empty")
    (match t.every with
     | .some rule =>
       match validateEvery rule key arr with
       | .error e => .error e
       | .ok _ => t.someAtCheck key arr
     | .none => t.someAtCheck key arr))))
  | _ => .error ("Type of " ++ key ++ " mismatch, expected Array")

/-- `<ArrayType as Validator>::transform`: truncate, then the custom
function. -/
def ArrayType.transform (t : ArrayType) (key : String) (v : JSONValue) :
    Except String JSONValue :=
  match v with
  | .Array arr =>
    let a1 := match t.truncate with | .some len => arr.take len | .none => arr
    let a2 := match t.transformFn with | .some f => f a1 | .none => a1
    .ok (.Array a2)
  | _ => .error ("Type of " ++ key ++ " mismatch, expected Array")

/-- `ArrayType::boxed`. -/
def ArrayType.boxed (t : ArrayType) : Validator := ⟨t.validate, t.transform⟩

/-- `BooleanType` from `validator.rs`. -/
structure BooleanType where
  value : Option Bool
  transformFn : Option (Bool → Bool)

/-- `BooleanType::new`. -/
def BooleanType.new : BooleanType := ⟨none, none⟩

/-- `BooleanType::falsy`. -/
def BooleanType.falsy (t : BooleanType) : BooleanType := { t with value := some false }

/-- `BooleanType::truthy`. -/
def BooleanType.truthy (t : BooleanType) : BooleanType := { t with value := some true }

/-- `<BooleanType as Validator>::validate`. -/
def BooleanType.validate (t : BooleanType) (key : String) (v : JSONValue) :
    Except String Unit :=
  match v with
  | .Boolean b =>
    failIf t.value (fun expected => !(b == expected))
      (fun expected => "For " ++ key ++ ", expected " ++ toString expected)
    (.ok ())
  | _ => .error ("Type of " ++ key ++ " mismatch, expected Boolean")

/-- `<BooleanType as Validator>::transform`. -/
def BooleanType.transform (t : BooleanType) (key : String) (v : JSONValue) :
    Except String JSONValue :=
  match v with
  | .Boolean b =>
    .ok (.Boolean (match t.transformFn with | some f => f b | none => b))
  | _ => .error ("Type of " ++ key ++ " mismatch, expected Boolean")

/-- `BooleanType::boxed`. -/
def BooleanType.boxed (t : BooleanType) : Validator := ⟨t.validate, t.transform⟩

/-- `ObjectType` from `validator.rs`: a rule per declared sub-property. -/
structure ObjectType where
  rules : OrderedMap Validator

/-- `ObjectType::new`. -/
def ObjectType.new : ObjectType := ⟨OrderedMap.new⟩

/-- `ObjectType::property`. -/
def ObjectType.property (t : ObjectType) (key : String) (rule : Validator) : ObjectType :=
  ⟨t.rules.insert key rule⟩

/-- The sub-property loop of `ObjectType::validate`. -/
def validateProps (key : String) (obj : OrderedMap JSONValue) :
    List (String × Validator) → Except String Unit
  | [] => .ok ()
  | (subkey, rule) :: rest =>
    match obj.get subkey with
    | some value =>
      match rule.validate subkey value with
      | .error e => .error e
      | .ok _ => validateProps key obj rest
    | none => .error ("In " ++ key ++ ", key '" ++ subkey ++ "' not found")

/-- `<ObjectType as Validator>::validate`. -/
def ObjectType.validate (t : ObjectType) (key : String) (v : JSONValue) :
    Except String Unit :=
  match v with
  | .Object obj => validateProps key obj t.rules.iter
  | _ => .error ("Type of " ++ key ++ " mismatch, expected Object")

/-- `ObjectType::boxed` (the trait's default `transform` is the identity
on a clone of the value). -/
def ObjectType.boxed (t : ObjectType) : Validator :=
  ⟨t.validate, fun _ v => .ok v⟩

/-- `NullType` from `validator.rs`. -/
structure NullType where

/-- `NullType::new`. -/
def NullType.new : NullType := ⟨⟩

/-- `<NullType as Validator>::validate`. -/
def NullType.validate (_ : NullType) (key : String) (v : JSONValue) : Except String Unit :=
  match v with
  | .Null => .ok ()
  | _ => .error ("Type of " ++ key ++ " mismatch, expected Null")

/-- `NullType::boxed` (default `transform`). -/
def NullType.boxed (t : NullType) : Validator := ⟨t.validate, fun _ v => .ok v⟩

/-- `JSONSchema` from `validator.rs`. -/
structure JSONSchema where
  rules : OrderedMap Validator

/-- `JSONSchema::new`: insert the declared rules in order. -/
def JSONSchema.new (rules : List (String × Validator)) : JSONSchema :=
  ⟨rules.foldl (fun m kr => m.insert kr.1 kr.2) OrderedMap.new⟩

/-- The loop of `JSONSchema::transform`: for each declared rule in
insertion order, when the field is present in the *original* object,
replace its value in the accumulator by `rule.transform(...)`. -/
def transformLoop (obj : OrderedMap JSONValue) :
    List (String × Validator) → OrderedMap JSONValue → Except String (OrderedMap JSONValue)
  | [], acc => .ok acc
  | (key, rule) :: rest, acc =>
    match obj.get key with
    | some value =>
      match rule.transform key value with
      | .error e => .error e
      | .ok t => transformLoop obj rest (acc.insert key t)
    | none => transformLoop obj rest acc

/-- `JSONSchema::transform`: clone the object and run the loop. -/
def JSONSchema.transform (s : JSONSchema) (value : JSONValue) : Except String JSONValue :=
  match value with
  | .Object obj =>
    match transformLoop obj s.rules.iter obj with
    | .error e => .error e
    | .ok t => .ok (.Object t)
  | _ => .error "Expected an object for transformation"

/-- The loop of `JSONSchema::validate`: each declared field must be
present in the transformed object and pass its rule. -/
def validateLoop (obj : OrderedMap JSONValue) :
    List (String × Validator) → Except String Unit
  | [] => .ok ()
  | (key, rule) :: rest =>
    match obj.get key with
    | some value =>
      match rule.validate key value with
      | .error e => .error e
      | .ok _ => validateLoop obj rest
    | none => .error ("Key '" ++ key ++ "' not found")

/-- `JSONSchema::validate`: transform pass, then validate pass, returning
the transformed object. -/
def JSONSchema.validate (s : JSONSchema) (value : JSONValue) : Except String JSONValue :=
  match s.transform value with
  | .error e => .error e
  | .ok transformed =>
    match transformed with
    | .Object obj =>
      match validateLoop obj s.rules.iter with
      | .error e => .error e
      | .ok _ => .ok transformed
    | _ => .error "Expected an object for validation"

/-! ## Predicates used in the statements and proofs -/

/-- The well-formedness invariant of an `OrderedMap`: the order list has
no duplicates and lists exactly the bound keys. -/
def OrderedMap.WellFormed {V : Type} (m : OrderedMap V) : Prop :=
  m.order.Nodup ∧ ∀ k, k ∈ m.order ↔ (m.map.lookup k).isSome

/-- Every character of the list is ASCII. -/
def asciiOnly (cs : List Char) : Prop := ∀ c ∈ cs, c.toNat < 128

/-- A token that, if it is a `Number`, carries a nonempty ASCII digit run
(so that `rustParseF64` succeeds on it). -/
def goodNumberToken (t : Token) : Prop :=
  t.kind = .Number → ∃ s, t.text = some s ∧ s.toList ≠ [] ∧ s.toList.all Char.isDigit = true

/-- Parser-state invariant for ASCII inputs: the unread characters are
ASCII and the buffered token, if a `Number`, is a digit run. -/
def GoodP (p : Parser) : Prop :=
  asciiOnly p.chars ∧ ∀ t, p.current_token = some t → goodNumberToken t

/-- A parse outcome that is not the malformed-number error and hands back
a good state on success (proof-layer predicate for claim C4). -/
def NoFloatErr (r : Option (Except String (JSONValue × Parser))) : Prop :=
  (∀ e, r = some (.error e) → e ≠ "invalid float literal") ∧
  (∀ v p', r = some (.ok (v, p')) → GoodP p')

/-- The trimming stage of `StringType::transform` as a composite
(proof-layer helper for claim C8). -/
def applyTrims (b1 b2 b3 : Bool) (s : String) : String :=
  let s1 := if b1 then rustTrim s else s
  let s2 := if b2 then rustTrimStart s1 else s1
  if b3 then rustTrimEnd s2 else s2

/-- The case-mapping stage of `StringType::transform` as a composite
(proof-layer helper for claim C8). -/
def applyCase (b4 b5 : Bool) (s : String) : String :=
  let s4 := if b4 then rustToLowercase s else s
  if b5 then rustToUppercase s4 else s4

/-! ## Helper lemmas: the ordered map -/

theorem lookup_assocInsert_self {V : Type} (k : String) (v : V) (l : List (String × V)) :
    (assocInsert k v l).lookup k = some v := by
  induction l with
  | nil => simp [assocInsert, List.lookup]
  | cons hd tl ih =>
    obtain ⟨k', v'⟩ := hd
    by_cases h : k' = k
    · subst h
      simp [assocInsert, List.lookup]
    · have hb : (k == k') = false := beq_eq_false_iff_ne.mpr (Ne.symm h)
      simp [assocInsert, h, List.lookup, hb, ih]

theorem lookup_assocInsert_ne {V : Type} (k k' : String) (v : V) (l : List (String × V))
    (h : k' ≠ k) : (assocInsert k v l).lookup k' = l.lookup k' := by
  have hb : (k' == k) = false := beq_eq_false_iff_ne.mpr h
  induction l with
  | nil => simp [assocInsert, List.lookup, hb]
  | cons hd tl ih =>
    obtain ⟨k₀, v₀⟩ := hd
    by_cases h0 : k₀ = k
    · subst h0
      simp [assocInsert, List.lookup, hb]
    · by_cases h1 : k₀ = k'
      · subst h1
        simp [assocInsert, h0, List.lookup]
      · have hb1 : (k' == k₀) = false := beq_eq_false_iff_ne.mpr (Ne.symm h1)
        simp [assocInsert, h0, List.lookup, hb1, ih]

theorem get_insert_self {V : Type} (m : OrderedMap V) (k : String) (v : V) :
    (m.insert k v).get k = some v := by
  simp [OrderedMap.insert, OrderedMap.get, lookup_assocInsert_self]

theorem get_insert_ne {V : Type} (m : OrderedMap V) (k k' : String) (v : V) (h : k' ≠ k) :
    (m.insert k v).get k' = m.get k' := by
  simp [OrderedMap.insert, OrderedMap.get, lookup_assocInsert_ne _ _ _ _ h]

theorem insert_order_of_mem {V : Type} (m : OrderedMap V) (k : String) (v : V)
    (h : (m.map.lookup k).isSome) : (m.insert k v).order = m.order := by
  simp [OrderedMap.insert, h]

theorem insert_order_of_not_mem {V : Type} (m : OrderedMap V) (k : String) (v : V)
    (h : ¬ (m.map.lookup k).isSome) : (m.insert k v).order = m.order ++ [k] := by
  simp [OrderedMap.insert, h]

theorem wellFormed_new {V : Type} : (OrderedMap.new (V := V)).WellFormed := by
  constructor
  · simp [OrderedMap.new]
  · intro k
    simp [OrderedMap.new, List.lookup]

theorem lookup_assocInsert_isSome {V : Type} (k k' : String) (v : V) (l : List (String × V)) :
    ((assocInsert k v l).lookup k').isSome ↔ k' = k ∨ (l.lookup k').isSome := by
  by_cases h : k' = k
  · subst h
    simp [lookup_assocInsert_self]
  · simp [lookup_assocInsert_ne _ _ _ _ h, h]

theorem wellFormed_insert {V : Type} (m : OrderedMap V) (k : String) (v : V)
    (hwf : m.WellFormed) : (m.insert k v).WellFormed := by
  obtain ⟨hnd, hmem⟩ := hwf
  by_cases h : (m.map.lookup k).isSome
  · constructor
    · simpa [OrderedMap.insert, h] using hnd
    · intro k'
      simp only [OrderedMap.insert, h, if_pos, lookup_assocInsert_isSome]
      by_cases hk : k' = k
      · subst hk
        simp [hmem k', h]
      · simp [hmem k', hk]
  · constructor
    · have hk : k ∉ m.order := fun hin => h ((hmem k).mp hin)
      simp only [OrderedMap.insert, h, if_neg]
      simp [List.nodup_append, hnd, hk]
    · intro k'
      simp only [OrderedMap.insert, h, if_neg, lookup_assocInsert_isSome]
      by_cases hk : k' = k
      · subst hk
        simp
      · simp [hmem k', hk]

/-- When every configured value passes the check, `failIf` falls through
to the remaining checks. -/
theorem failIf_pass {α : Type} (o : Option α) (bad : α → Bool) (msg : α → String)
    (next : Except String Unit) (h : ∀ a, o = some a → bad a = false) :
    failIf o bad msg next = next := by
  cases o with
  | none => rfl
  | some a => simp [failIf, h a rfl]

/-! ## Claim C7 -/

/-- C7: `OrderedMap` keys are unique and iteration order is
first-insertion order: `insert` keeps a well-formed map well-formed,
updates the value of an existing key without moving its position, appends
a new key at the end, and consequently a parsed object with a duplicated
key (`{"b":1,"a":2,"b":3}`) iterates its keys in first-appearance order
`["b","a"]` with the later value winning. -/
theorem C7_ordered_map_first_insertion_order {V : Type} (m : OrderedMap V) (k : String)
    (v : V) (hwf : m.WellFormed) :
    (OrderedMap.new (V := V)).WellFormed ∧
    (m.insert k v).WellFormed ∧
    (m.insert k v).get k = some v ∧
    (∀ k', k' ≠ k → (m.insert k v).get k' = m.get k') ∧
    (k ∈ m.order → (m.insert k v).order = m.order) ∧
    (k ∉ m.order → (m.insert k v).order = m.order ++ [k]) ∧
    parseF 99 "\x7b\"b\":1,\"a\":2,\"b\":3\x7d".toList =
      some (.ok (.Object ⟨["b", "a"], [("b", .Number 3), ("a", .Number 2)]⟩)) := by
  refine ⟨wellFormed_new, wellFormed_insert m k v hwf, get_insert_self m k v,
    fun k' h => get_insert_ne m k k' v h, ?_, ?_, rfl⟩
  · intro hin
    exact insert_order_of_mem m k v ((hwf.2 k).mp hin)
  · intro hout
    exact insert_order_of_not_mem m k v (fun hs => hout ((hwf.2 k).mpr hs))

/-- Witness for C7 at a concrete map, key and value. -/
theorem C7_witness :
    ((OrderedMap.new (V := ℚ)).insert "a" 1).get "a" = some 1 :=
  (C7_ordered_map_first_insertion_order OrderedMap.new "a" 1 wellFormed_new).2.2.1

/-! ## Claim C2 -/

/-- C2 fails on the code: `NumberType::validate` only rejects `n < min`
and `n > max`, so a number equal to the configured `gt` minimum (or `lt`
maximum) passes, contradicting the claimed exclusive bounds. -/
theorem C2_counterexample :
    (NumberType.new.gt 5).validate "age" (.Number 5) = .ok () ∧
    (NumberType.new.lt 5).validate "age" (.Number 5) = .ok () := ⟨rfl, rfl⟩

/-- C2 amended: for a `NumberType` with configured minimum `m` (via `gt`)
and maximum `M` (via `lt`) and no integrality check, validation of
`Number n` succeeds iff `m ≤ n ∧ n ≤ M`: both bounds are inclusive. -/
theorem C2_amended_inclusive_bounds (t : NumberType) (m M n : ℚ) (key : String)
    (hmin : t.min = some m) (hmax : t.max = some M) (hint : t.integer = none) :
    (t.validate key (.Number n) = .ok () ↔ m ≤ n ∧ n ≤ M) := by
  simp only [NumberType.validate, failIf, hmin, hmax, hint]
  constructor
  · intro h
    by_cases h1 : n < m
    · simp [h1] at h
    · by_cases h2 : n > M
      · simp [h1, h2] at h
      · exact ⟨not_lt.mp h1, not_lt.mp h2⟩
  · rintro ⟨hm, hM⟩
    have h1 : ¬ n < m := not_lt.mpr hm
    have h2 : ¬ n > M := not_lt.mpr hM
    simp [h1, h2]

/-- Witness for C2 at a concrete rule and number. -/
theorem C2_witness :
    ((NumberType.new.gt 3).lt 10).validate "k" (.Number 7) = .ok () :=
  (C2_amended_inclusive_bounds ((NumberType.new.gt 3).lt 10) 3 10 7 "k" rfl rfl rfl).mpr
    (by norm_num)

/-! ## Claim C3 -/

/-- C3 fails on the code: with both a `some` rule and an `at` rule
configured, an array whose element satisfies the `some` rule validates
`Ok` even though the `at` rule rejects that element — the `at` check is
never reached. -/
theorem C3_counterexample :
    ({ ArrayType.new with
        some := some NumberType.new.boxed,
        at' := some (0, StringType.new.boxed) } : ArrayType).validate "xs"
      (.Array [.Number 1]) = .ok () ∧
    (StringType.new.boxed).validate "xs" (.Number 1) =
      .error "Type of xs mismatch, expected String" := ⟨rfl, rfl⟩

/-- C3 amended: the checks run in the listed order, but a configured
`some` rule short-circuits the whole validation: when the earlier checks
pass, a satisfied `some` returns success immediately and an unsatisfied
`some` returns its own error — in both cases the `at` check is skipped
(the result is independent of the configured `at` rule). -/
theorem C3_amended_some_short_circuits (t : ArrayType) (r : Validator) (key : String)
    (arr : List JSONValue) (hs : t.some = some r)
    (hmin : ∀ m, t.min_length = some m → ¬ arr.length < m)
    (hmax : ∀ M, t.max_length = some M → ¬ arr.length > M)
    (hlen : ∀ L, t.length = some L → arr.length = L)
    (hemp : ∀ b, t.empty = some b → b = true → arr ≠ [])
    (hev : ∀ rv, t.every = some rv → validateEvery rv key arr = .ok ()) :
    (arr.any (fun item => exceptIsOk (r.validate key item)) = true →
        t.validate key (.Array arr) = .ok ()) ∧
    (arr.any (fun item => exceptIsOk (r.validate key item)) = false →
        t.validate key (.Array arr) = .error ("No items in the " ++ key ++ " match the rule")) := by
  have hred : t.validate key (.Array arr) = t.someAtCheck key arr := by
    simp only [ArrayType.validate]
    rw [failIf_pass _ _ _ _ (fun a ha => decide_eq_false (hmin a ha))]
    rw [failIf_pass _ _ _ _ (fun a ha => decide_eq_false (hmax a ha))]
    rw [failIf_pass _ _ _ _ (fun a ha => by simp [hlen a ha])]
    rw [failIf_pass _ _ _ _ (fun a ha => by
      cases a with
      | false => rfl
      | true => simp [hemp true ha rfl])]
    cases he : t.every with
    | none => rfl
    | some rv => simp [hev rv he]
  rw [hred]
  simp only [ArrayType.someAtCheck, hs]
  constructor
  · intro h
    simp [h]
  · intro h
    simp [h]

/-- Witness for C3 at a concrete rule and array. -/
theorem C3_witness :
    ({ ArrayType.new with
        some := some NumberType.new.boxed,
        at' := some (0, StringType.new.boxed) } : ArrayType).validate "xs"
      (.Array [.Number 2]) = .ok () :=
  (C3_amended_some_short_circuits _ NumberType.new.boxed "xs" [.Number 2] rfl
    (fun _ h => Option.noConfusion h) (fun _ h => Option.noConfusion h)
    (fun _ h => Option.noConfusion h) (fun _ h => Option.noConfusion h)
    (fun _ h => Option.noConfusion h)).1 rfl

/-! ## Claim C9 -/

/-- C9: the lexer signals no error (its only terminal outcome is end of
input), and at a character that is not a quote, not numeric, not one of
the eight punctuation characters, not whitespace and not alphabetic, it
produces an empty `Keyword` token while consuming nothing, so the
token-collecting loop never reaches end of input: `lexF` exhausts every
fuel bound. -/
theorem C9_lexer_stuck (c : Char) (cs : List Char)
    (h1 : c ≠ '"') (h2 : rustIsNumeric c = false)
    (h3 : c ≠ '(') (h4 : c ≠ ')') (h5 : c ≠ '[') (h6 : c ≠ ']')
    (h7 : c ≠ '\x7b') (h8 : c ≠ '\x7d') (h9 : c ≠ ':') (h10 : c ≠ ',')
    (h11 : rustIsWhitespace c = false) (h12 : rustIsAlphabetic c = false) :
    nextToken (c :: cs) = some (⟨.Keyword, some ""⟩, c :: cs) ∧
    ∀ n, lexF n (c :: cs) = none := by
  have hnt : nextToken (c :: cs) = some (⟨.Keyword, some ""⟩, c :: cs) := by
    simp [nextToken, h1, h2, h3, h4, h5, h6, h7, h8, h9, h10, h11, h12, consume_while]
  refine ⟨hnt, ?_⟩
  intro n
  induction n with
  | zero => rfl
  | succ n ih => simp [lexF, hnt, ih]

/-- Witness for C9 at the character `*`. -/
theorem C9_witness :
    nextToken ['*'] = some (⟨.Keyword, some ""⟩, ['*']) ∧ lexF 1000 ['*'] = none :=
  ⟨(C9_lexer_stuck '*' [] (by decide) (by decide) (by decide) (by decide) (by decide)
      (by decide) (by decide) (by decide) (by decide) (by decide) (by decide) (by decide)).1,
    (C9_lexer_stuck '*' [] (by decide) (by decide) (by decide) (by decide) (by decide)
      (by decide) (by decide) (by decide) (by decide) (by decide) (by decide) (by decide)).2 1000⟩

/-! ## Claim C10 -/

/-- C10: the parser accepts a trailing comma: at any entry-start point of
the object (resp. array) loop — in particular immediately after a comma —
a closing brace (resp. bracket) finishes the structure successfully with
the entries collected so far, so a body with a trailing comma parses and
yields the same value tree as the body without it, as the concrete
object-level and nested-array inputs illustrate. -/
theorem C10_trailing_comma :
    (∀ (fuel : Nat) (m : OrderedMap JSONValue) (p : Parser) (t : Token),
        p.current_token = some t → t.kind = .CloseBrace →
        object_loopF (fuel + 1) m p = some (.ok (.Object m, p.next_token))) ∧
    (∀ (fuel : Nat) (a : List JSONValue) (p : Parser) (t : Token),
        p.current_token = some t → t.kind = .CloseBracket →
        array_loopF (fuel + 1) a p = some (.ok (.Array a, p.next_token))) ∧
    parseF 99 "\x7b\"a\": 1,\x7d".toList = parseF 99 "\x7b\"a\": 1\x7d".toList ∧
    parseF 99 "\x7b\"a\": 1\x7d".toList =
      some (.ok (.Object ⟨["a"], [("a", .Number 1)]⟩)) ∧
    parseF 99 "\x7b\"a\": [1, 2,]\x7d".toList = parseF 99 "\x7b\"a\": [1, 2]\x7d".toList ∧
    parseF 99 "\x7b\"a\": [1, 2]\x7d".toList =
      some (.ok (.Object ⟨["a"], [("a", .Array [.Number 1, .Number 2])]⟩)) := by
  refine ⟨?_, ?_, rfl, rfl, rfl, rfl⟩
  · intro fuel m p t hcur hkind
    simp [object_loopF, hcur, hkind]
  · intro fuel a p t hcur hkind
    simp [array_loopF, hcur, hkind]

/-- Witness for C10 at a concrete loop state. -/
theorem C10_witness :
    object_loopF 1 OrderedMap.new ⟨some ⟨.CloseBrace, none⟩, []⟩ =
      some (.ok (.Object OrderedMap.new,
        (⟨some ⟨.CloseBrace, none⟩, []⟩ : Parser).next_token)) :=
  C10_trailing_comma.1 0 OrderedMap.new ⟨some ⟨.CloseBrace, none⟩, []⟩ ⟨.CloseBrace, none⟩
    rfl rfl

/-! ## Claim C1 -/

/-- C1 fails on the code: `parse` succeeds on the input `5}`, whose first
token is a `Number`, not an opening brace — `parse_object` discards the
first token without checking it. -/
theorem C1_counterexample :
    parseF 99 "5\x7d".toList = some (.ok (.Object OrderedMap.new)) ∧
    nextToken "5\x7d".toList = some (⟨.Number, some "5"⟩, ['\x7d']) ∧
    (⟨TokenKind.Number, some "5"⟩ : Token).kind ≠ .OpenBrace := ⟨rfl, rfl, by decide⟩

/-- C1 amended: `parse` consumes the first token without ever inspecting
it — replacing the first token of the input by any other token leaves the
result unchanged — and then parses an object body; `{`-rooted documents
parse, and top-level arrays and bare scalars are still rejected, but only
because what follows their first token is not an object body. -/
theorem C1_amended_first_token_unchecked :
    (∀ (fuel : Nat) (input input' : List Char) (t t' : Token) (r : List Char),
        nextToken input = some (t, r) → nextToken input' = some (t', r) →
        parseF fuel input = parseF fuel input') ∧
    parseF 99 "\x7b\x7d".toList = some (.ok (.Object OrderedMap.new)) ∧
    parseF 99 "[1, 2]".toList = some (.error "Unexpected token: 1") ∧
    parseF 99 "5".toList = some (.error "Unexpected end of input") := by
  refine ⟨?_, rfl, rfl, rfl⟩
  intro fuel input input' t t' r h h'
  cases fuel with
  | zero => simp [parseF, Parser.next_token, h, h', parse_objectF]
  | succ fuel => simp [parseF, Parser.next_token, h, h', parse_objectF]

/-- Witness for C1: the inputs `5}` and `{}` agree after their first
token, so they parse identically. -/
theorem C1_witness :
    parseF 99 "5\x7d".toList = parseF 99 "\x7b\x7d".toList :=
  C1_amended_first_token_unchecked.1 99 "5\x7d".toList "\x7b\x7d".toList
    ⟨.Number, some "5"⟩ ⟨.OpenBrace, none⟩ ['\x7d'] rfl rfl

/-! ## Claim C5 (counterexample) -/

/-- C5 fails on the code as stated: with schema rules `a` then `b`, field
`a` absent and field `b` present with a value whose transform fails, the
transform pass (which runs first, over all fields) reports `b`'s type
mismatch, not the "key not found" error for the earlier-declared missing
`a`. -/
theorem C5_counterexample :
    (JSONSchema.new [("a", NumberType.new.boxed), ("b", NumberType.new.boxed)]).validate
      (.Object ⟨["b"], [("b", .String "x")]⟩) =
      .error "Type of b mismatch, expected Number" ∧
    ("Type of b mismatch, expected Number" : String) ≠ "Key 'a' not found" :=
  ⟨rfl, by decide⟩

/-! ## Helper lemmas: the schema passes -/

/-- Frame property of the transform-pass loop: on success the order list
is unchanged, keys that are not named by a rule or absent from the source
object keep their bindings, and no present key disappears. -/
theorem transformLoop_frame (obj : OrderedMap JSONValue)
    (rules : List (String × Validator)) :
    ∀ (acc out : OrderedMap JSONValue),
      (∀ k, (obj.map.lookup k).isSome → (acc.map.lookup k).isSome) →
      transformLoop obj rules acc = .ok out →
      out.order = acc.order ∧
      (∀ k, ((∀ r, (k, r) ∉ rules) ∨ obj.get k = none) → out.get k = acc.get k) ∧
      (∀ k, (obj.map.lookup k).isSome → (out.map.lookup k).isSome) := by
  induction rules with
  | nil =>
    intro acc out hacc h
    cases h
    exact ⟨rfl, fun _ _ => rfl, hacc⟩
  | cons hd rest ih =>
    intro acc out hacc h
    obtain ⟨key, rule⟩ := hd
    simp only [transformLoop] at h
    cases hob : obj.get key with
    | none =>
      simp only [hob] at h
      obtain ⟨ho, hf, hs⟩ := ih acc out hacc h
      refine ⟨ho, ?_, hs⟩
      intro k hk
      refine hf k ?_
      rcases hk with hk | hk
      · exact Or.inl fun r hr => hk r (List.mem_cons_of_mem _ hr)
      · exact Or.inr hk
    | some value =>
      simp only [hob] at h
      cases htr : rule.transform key value with
      | error e =>
        simp only [htr] at h
        cases h
      | ok t =>
        simp only [htr] at h
        have hmem : (acc.map.lookup key).isSome := hacc key (by simp [OrderedMap.get] at hob; simp [hob])
        have hacc' : ∀ k, (obj.map.lookup k).isSome → ((acc.insert key t).map.lookup k).isSome := by
          intro k hk
          simp only [OrderedMap.insert]
          exact (lookup_assocInsert_isSome key k t acc.map).mpr (Or.inr (hacc k hk))
        obtain ⟨ho, hf, hs⟩ := ih (acc.insert key t) out hacc' h
        refine ⟨?_, ?_, hs⟩
        · rw [ho, insert_order_of_mem acc key t hmem]
        · intro k hk
          have hne : k ≠ key := by
            rcases hk with hk | hk
            · intro he
              exact hk rule (by rw [he]; exact List.mem_cons_self _ _)
            · intro he
              rw [he, hob] at hk
              cases hk
          have : out.get k = (acc.insert key t).get k := by
            refine hf k ?_
            rcases hk with hk | hk
            · exact Or.inl fun r hr => hk r (List.mem_cons_of_mem _ hr)
            · exact Or.inr hk
          rw [this, get_insert_ne acc key k t hne]

/-- A passing block of earlier-declared rules does not affect the
validate-pass loop. -/
theorem validateLoop_append_pass (obj : OrderedMap JSONValue)
    (pre rest : List (String × Validator))
    (hpre : ∀ kr ∈ pre, ∃ v, obj.get kr.1 = some v ∧ kr.2.validate kr.1 v = .ok ()) :
    validateLoop obj (pre ++ rest) = validateLoop obj rest := by
  induction pre with
  | nil => rfl
  | cons hd tl ih =>
    obtain ⟨k, r⟩ := hd
    obtain ⟨v, hv, hok⟩ := hpre (k, r) (List.mem_cons_self _ _)
    have hv' : obj.get k = some v := hv
    have hok' : r.validate k v = .ok () := hok
    simp only [List.cons_append, validateLoop]
    simp only [hv', hok']
    exact ih fun kr hkr => hpre kr (List.mem_cons_of_mem _ hkr)

/-- On success, `JSONSchema::transform` of an object runs the loop on the
object itself. -/
theorem transform_ok_loop (s : JSONSchema) (obj : OrderedMap JSONValue)
    (tobj : OrderedMap JSONValue)
    (htr : s.transform (.Object obj) = .ok (.Object tobj)) :
    transformLoop obj s.rules.iter obj = .ok tobj := by
  simp only [JSONSchema.transform] at htr
  cases hl : transformLoop obj s.rules.iter obj with
  | error e =>
    simp only [hl] at htr
    cases htr
  | ok t =>
    simp only [hl, Except.ok.injEq] at htr
    cases htr
    rfl

/-! ## Claim C5 -/

/-- C5 amended: provided the transform pass succeeds and every
earlier-declared rule's field is present in the transformed object and
passes validation, a schema field absent from the object is left
untouched by the transform pass and `validate` fails with the
"key not found" error naming that field, before that field's rule logic
runs.  (The original claim's caveat has to cover the whole transform
pass: a transform error of any rule — even a later-declared one — is
reported first, as `C5_counterexample` shows.) -/
theorem C5_amended_missing_key (s : JSONSchema) (obj tobj : OrderedMap JSONValue)
    (key : String) (rule : Validator) (pre post : List (String × Validator))
    (hiter : s.rules.iter = pre ++ (key, rule) :: post)
    (habs : obj.get key = none)
    (htr : s.transform (.Object obj) = .ok (.Object tobj))
    (hpre : ∀ kr ∈ pre, ∃ v, tobj.get kr.1 = some v ∧ kr.2.validate kr.1 v = .ok ()) :
    tobj.get key = none ∧
    s.validate (.Object obj) = .error ("Key '" ++ key ++ "' not found") := by
  have hloop := transform_ok_loop s obj tobj htr
  have hframe := transformLoop_frame obj s.rules.iter obj tobj (fun _ hk => hk) hloop
  have habs' : tobj.get key = none := by
    rw [hframe.2.1 key (Or.inr habs), habs]
  refine ⟨habs', ?_⟩
  simp only [JSONSchema.validate, htr]
  rw [hiter, validateLoop_append_pass tobj pre _ hpre]
  simp only [validateLoop, habs']

/-- Witness for C5 at a concrete schema and object (field `b` missing). -/
theorem C5_witness :
    (JSONSchema.new [("a", NumberType.new.boxed), ("b", NumberType.new.boxed)]).validate
      (.Object ⟨["a"], [("a", .Number 1)]⟩) = .error ("Key '" ++ "b" ++ "' not found") :=
  (C5_amended_missing_key
    (JSONSchema.new [("a", NumberType.new.boxed), ("b", NumberType.new.boxed)])
    ⟨["a"], [("a", .Number 1)]⟩ ⟨["a"], [("a", .Number 1)]⟩ "b" NumberType.new.boxed
    [("a", NumberType.new.boxed)] [] rfl rfl rfl
    (by
      intro kr hkr
      simp only [List.mem_singleton] at hkr
      subst hkr
      exact ⟨.Number 1, rfl, rfl⟩)).2

/-! ## Claim C6 -/

/-- C6: `Schema::validate` never mutates the input tree (the model is
pure); on success the returned object differs from the input at most in
the values of fields that are named by a schema rule and present in the
input: every key not named by a rule, and every key absent from the
input, keeps its exact binding, and the key iteration order of the result
equals that of the input. -/
theorem C6_validate_frame (s : JSONSchema) (obj : OrderedMap JSONValue) (out : JSONValue)
    (h : s.validate (.Object obj) = .ok out) :
    ∃ tobj, out = .Object tobj ∧ tobj.order = obj.order ∧
      (∀ k, (∀ r, (k, r) ∉ s.rules.iter) → tobj.get k = obj.get k) ∧
      (∀ k, obj.get k = none → tobj.get k = obj.get k) := by
  simp only [JSONSchema.validate] at h
  cases htr : s.transform (.Object obj) with
  | error e =>
    simp only [htr] at h
    cases h
  | ok transformed =>
    simp only [htr] at h
    cases transformed with
    | Object tobj =>
      cases hvl : validateLoop tobj s.rules.iter with
      | error e =>
        simp only [hvl] at h
        cases h
      | ok u =>
        simp only [hvl, Except.ok.injEq] at h
        have hloop := transform_ok_loop s obj tobj htr
        have hframe := transformLoop_frame obj s.rules.iter obj tobj (fun _ hk => hk) hloop
        exact ⟨tobj, h.symm, hframe.1,
          fun k hk => hframe.2.1 k (Or.inl hk),
          fun k hk => hframe.2.1 k (Or.inr hk)⟩
    | Array a => cases h
    | String a => cases h
    | Number a => cases h
    | Boolean a => cases h
    | Null => cases h

/-- Witness for C6 at a concrete schema (a trimming rule on `name`) and
object (with an extra field `x` not named by any rule). -/
theorem C6_witness :
    ∃ tobj, (JSONValue.Object ⟨["name", "x"],
        [("name", JSONValue.String "a"), ("x", JSONValue.Number 5)]⟩) = .Object tobj ∧
      tobj.order = (⟨["name", "x"],
        [("name", JSONValue.String "  a  "), ("x", JSONValue.Number 5)]⟩ :
          OrderedMap JSONValue).order ∧
      (∀ k, (∀ r, (k, r) ∉ (JSONSchema.new
          [("name", ({ StringType.new with trim := true } : StringType).boxed)]).rules.iter) →
        tobj.get k = (⟨["name", "x"],
          [("name", JSONValue.String "  a  "), ("x", JSONValue.Number 5)]⟩ :
            OrderedMap JSONValue).get k) ∧
      (∀ k, (⟨["name", "x"],
          [("name", JSONValue.String "  a  "), ("x", JSONValue.Number 5)]⟩ :
            OrderedMap JSONValue).get k = none →
        tobj.get k = (⟨["name", "x"],
          [("name", JSONValue.String "  a  "), ("x", JSONValue.Number 5)]⟩ :
            OrderedMap JSONValue).get k) :=
  C6_validate_frame
    (JSONSchema.new [("name", ({ StringType.new with trim := true } : StringType).boxed)])
    ⟨["name", "x"], [("name", JSONValue.String "  a  "), ("x", JSONValue.Number 5)]⟩
    (.Object ⟨["name", "x"], [("name", JSONValue.String "a"), ("x", JSONValue.Number 5)]⟩)
    rfl

/-! ## Claim C4 -/

/-- C4 fails on the code: `char::is_numeric` accepts non-ASCII numeric
characters, so `½` lexes as a `Number` token whose text is not a digit
run, and parsing `{"a": ½}` reaches the malformed-number branch. -/
theorem C4_counterexample :
    parseF 99 "\x7b\"a\": ½\x7d".toList = some (.error "invalid float literal") ∧
    nextToken "½\x7d".toList = some (⟨.Number, some "½"⟩, ['\x7d']) ∧
    ("½".toList.all Char.isDigit) = false := ⟨rfl, rfl, rfl⟩

/-- `consume_while` is the `takeWhile`/`dropWhile` split. -/
theorem consume_while_eq (p : Char → Bool) (l : List Char) :
    consume_while p l = (l.takeWhile p, l.dropWhile p) := by
  induction l with
  | nil => rfl
  | cons c cs ih =>
    by_cases h : p c
    · simp [consume_while, h, ih, List.takeWhile_cons, List.dropWhile_cons]
    · simp [consume_while, h, List.takeWhile_cons, List.dropWhile_cons]

theorem asciiOnly_sublist {l₁ l₂ : List Char} (hs : l₁.Sublist l₂) (h : asciiOnly l₂) :
    asciiOnly l₁ := fun c hc => h c (hs.mem hc)

/-- An ASCII character accepted by `rustIsNumeric` is an ASCII digit (the
extra Latin-1 numeric code points are all above 127). -/
theorem ascii_numeric_isDigit (c : Char) (ha : c.toNat < 128)
    (hn : rustIsNumeric c = true) : c.isDigit = true := by
  simp only [rustIsNumeric, Bool.or_eq_true, beq_iff_eq] at hn
  rcases hn with ((((((h | h) | h) | h) | h) | h) | h)
  · exact h
  all_goals
    exact absurd ha (by simp [Char.toNat, h]; decide)

/-- On ASCII input, `next_token` yields an ASCII remainder and, for
`Number` tokens, a nonempty digit-run text. -/
theorem nextToken_good (cs : List Char) (ha : asciiOnly cs) :
    ∀ t rest, nextToken cs = some (t, rest) → asciiOnly rest ∧ goodNumberToken t := by
  induction cs with
  | nil => intro t rest h; cases h
  | cons c cs ih =>
    intro t rest h
    have hacs : asciiOnly cs := fun x hx => ha x (List.mem_cons_of_mem _ hx)
    by_cases h1 : c = '"'
    · simp only [nextToken, h1, if_pos, consume_while_eq] at h
      cases h
      refine ⟨asciiOnly_sublist ((List.tail_sublist _).trans (List.dropWhile_sublist _)) hacs, ?_⟩
      intro hk
      cases hk
    · by_cases h2 : rustIsNumeric c
      · simp only [nextToken, h1, h2, if_neg, if_pos, if_false, consume_while_eq] at h
        cases h
        refine ⟨asciiOnly_sublist (List.dropWhile_sublist _) (fun x hx => ha x hx), ?_⟩
        intro _
        refine ⟨_, rfl, ?_, ?_⟩
        · simp [List.takeWhile_cons, h2]
        · rw [List.all_eq_true]
          intro x hx
          have hxn : rustIsNumeric x = true := List.mem_takeWhile_imp hx
          have hxa : x.toNat < 128 := ha x ((List.takeWhile_sublist _).mem hx)
          exact ascii_numeric_isDigit x hxa hxn
      · by_cases h3 : c = '('
        · simp only [nextToken, h1, h2, h3, if_pos, if_neg, if_false] at h
          cases h
          exact ⟨hacs, fun hk => by cases hk⟩
        · by_cases h4 : c = ')'
          · simp only [nextToken, h1, h2, h3, h4, if_pos, if_neg, if_false] at h
            cases h
            exact ⟨hacs, fun hk => by cases hk⟩
          · by_cases h5 : c = '['
            · simp only [nextToken, h1, h2, h3, h4, h5, if_pos, if_neg, if_false] at h
              cases h
              exact ⟨hacs, fun hk => by cases hk⟩
            · by_cases h6 : c = ']'
              · simp only [nextToken, h1, h2, h3, h4, h5, h6, if_pos, if_neg, if_false] at h
                cases h
                exact ⟨hacs, fun hk => by cases hk⟩
              · by_cases h7 : c = '\x7b'
                · simp only [nextToken, h1, h2, h3, h4, h5, h6, h7, if_pos, if_neg,
                    if_false] at h
                  cases h
                  exact ⟨hacs, fun hk => by cases hk⟩
                · by_cases h8 : c = '\x7d'
                  · simp only [nextToken, h1, h2, h3, h4, h5, h6, h7, h8, if_pos, if_neg,
                      if_false] at h
                    cases h
                    exact ⟨hacs, fun hk => by cases hk⟩
                  · by_cases h9 : c = ':'
                    · simp only [nextToken, h1, h2, h3, h4, h5, h6, h7, h8, h9, if_pos,
                        if_neg, if_false] at h
                      cases h
                      exact ⟨hacs, fun hk => by cases hk⟩
                    · by_cases h10 : c = ','
                      · simp only [nextToken, h1, h2, h3, h4, h5, h6, h7, h8, h9, h10,
                          if_pos, if_neg, if_false] at h
                        cases h
                        exact ⟨hacs, fun hk => by cases hk⟩
                      · by_cases h11 : rustIsWhitespace c
                        · simp only [nextToken, h1, h2, h3, h4, h5, h6, h7, h8, h9, h10,
                            h11, if_pos, if_neg, if_false] at h
                          exact ih hacs t rest h
                        · simp only [nextToken, h1, h2, h3, h4, h5, h6, h7, h8, h9, h10,
                            h11, if_pos, if_neg, if_false, consume_while_eq] at h
                          cases h
                          refine ⟨asciiOnly_sublist (List.dropWhile_sublist _)
                            (fun x hx => ha x hx), ?_⟩
                          intro hk
                          cases hk

/-- Advancing the lookahead preserves the ASCII invariant. -/
theorem GoodP_next_token (p : Parser) (h : GoodP p) : GoodP p.next_token := by
  unfold Parser.next_token
  cases hnt : nextToken p.chars with
  | none => exact ⟨h.1, fun t ht => by cases ht⟩
  | some tr =>
    obtain ⟨t, rest⟩ := tr
    obtain ⟨ga, gt⟩ := nextToken_good p.chars h.1 t rest hnt
    exact ⟨ga, fun t' ht' => by cases ht'; exact gt⟩

/-- The "unexpected token" errors start with `U`, so they are never the
malformed-number error. -/
theorem unexpected_token_ne_ifl (s : String) :
    ("Unexpected token: " ++ s) ≠ "invalid float literal" := by
  intro h
  have hU : ("Unexpected token: " ++ s).data.head? = some 'U' := by
    rw [String.data_append]
    rfl
  rw [h] at hU
  exact absurd hU (by decide)

/-- The "unknown keyword" errors start with `U`, so they are never the
malformed-number error. -/
theorem unknown_keyword_ne_ifl (s : String) :
    ("Unknown keyword: " ++ s) ≠ "invalid float literal" := by
  intro h
  have hU : ("Unknown keyword: " ++ s).data.head? = some 'U' := by
    rw [String.data_append]
    rfl
  rw [h] at hU
  exact absurd hU (by decide)

/-- On good states the recursive-descent functions never produce the
malformed-number error and return good states: the `Number` branch of
`parse_value` always has a digit-run text in hand, and every other error
message differs from `"invalid float literal"`. -/
theorem parser_no_float_err : ∀ fuel : Nat,
    (∀ p, GoodP p → NoFloatErr (parse_valueF fuel p)) ∧
    (∀ p, GoodP p → NoFloatErr (parse_objectF fuel p)) ∧
    (∀ m p, GoodP p → NoFloatErr (object_loopF fuel m p)) ∧
    (∀ p, GoodP p → NoFloatErr (parse_arrayF fuel p)) ∧
    (∀ a p, GoodP p → NoFloatErr (array_loopF fuel a p)) := by
  have hnone : NoFloatErr none := ⟨fun e h => (by cases h), fun v p' h => (by cases h)⟩
  intro fuel
  induction fuel with
  | zero =>
    exact ⟨fun p _ => hnone, fun p _ => hnone, fun m p _ => hnone, fun p _ => hnone,
      fun a p _ => hnone⟩
  | succ fuel ih =>
    obtain ⟨ihv, iho, ihol, iha, ihal⟩ := ih
    have hval : ∀ p, GoodP p → NoFloatErr (parse_valueF (fuel + 1) p) := by
      intro p hp
      simp only [parse_valueF]
      cases hc : p.current_token with
      | none =>
        simp only [hc]
        exact ⟨fun e h => (by cases h; decide), fun v p' h => (by cases h)⟩
      | some token =>
        simp only [hc]
        cases hk : token.kind with
        | OpenBrace => exact iho p hp
        | OpenBracket => exact iha p hp
        | QuotedString =>
          exact ⟨fun e h => (by cases h),
            fun v p' h => (by cases h; exact GoodP_next_token p hp)⟩
        | Number =>
          cases hq : rustParseF64 (token.text.getD "") with
          | some q =>
            simp only [hq]
            exact ⟨fun e h => (by cases h),
              fun v p' h => (by cases h; exact GoodP_next_token p hp)⟩
          | none =>
            obtain ⟨s, hs, hne, hd⟩ := hp.2 token hc hk
            rw [hs] at hq
            have hne' : s.data ≠ [] := hne
            have hd' : s.data.all Char.isDigit = true := hd
            simp [rustParseF64, hne, hd, hne', hd'] at hq
        | Keyword =>
          refine ⟨fun e h => ?_, fun v p' h => ?_⟩
          · by_cases hv1 : token.text.getD "" = "true"
            · simp [hv1] at h
            · by_cases hv2 : token.text.getD "" = "false"
              · simp [hv1, hv2] at h
              · by_cases hv3 : token.text.getD "" = "null"
                · simp [hv1, hv2, hv3] at h
                · simp only [hv1, hv2, hv3, if_false, Option.some.injEq] at h
                  cases h
                  exact unknown_keyword_ne_ifl _
          · by_cases hv1 : token.text.getD "" = "true"
            · simp only [hv1, if_pos, Option.some.injEq] at h
              cases h
              exact GoodP_next_token p hp
            · by_cases hv2 : token.text.getD "" = "false"
              · simp only [hv1, hv2, if_pos, if_false, Option.some.injEq] at h
                cases h
                exact GoodP_next_token p hp
              · by_cases hv3 : token.text.getD "" = "null"
                · simp only [hv1, hv2, hv3, if_pos, if_false, Option.some.injEq] at h
                  cases h
                  exact GoodP_next_token p hp
                · simp [hv1, hv2, hv3] at h
        | OpenParen =>
          exact ⟨fun e h => (by cases h; exact unexpected_token_ne_ifl _),
            fun v p' h => (by cases h)⟩
        | CloseParen =>
          exact ⟨fun e h => (by cases h; exact unexpected_token_ne_ifl _),
            fun v p' h => (by cases h)⟩
        | CloseBracket =>
          exact ⟨fun e h => (by cases h; exact unexpected_token_ne_ifl _),
            fun v p' h => (by cases h)⟩
        | CloseBrace =>
          exact ⟨fun e h => (by cases h; exact unexpected_token_ne_ifl _),
            fun v p' h => (by cases h)⟩
        | Colon =>
          exact ⟨fun e h => (by cases h; exact unexpected_token_ne_ifl _),
            fun v p' h => (by cases h)⟩
        | Comma =>
          exact ⟨fun e h => (by cases h; exact unexpected_token_ne_ifl _),
            fun v p' h => (by cases h)⟩
    refine ⟨hval, ?_, ?_, ?_, ?_⟩
    · intro p hp
      simp only [parse_objectF]
      exact ihol OrderedMap.new p.next_token (GoodP_next_token p hp)
    · intro m p hp
      simp only [object_loopF]
      cases hc : p.current_token with
      | none =>
        simp only [hc]
        exact ⟨fun e h => (by cases h; decide), fun v p' h => (by cases h)⟩
      | some token =>
        simp only [hc]
        by_cases hk1 : token.kind = .CloseBrace
        · simp only [hk1, if_pos]
          exact ⟨fun e h => (by cases h),
            fun v p' h => (by cases h; exact GoodP_next_token p hp)⟩
        · by_cases hk2 : token.kind = .QuotedString
          · simp only [hk1, hk2, if_pos, if_false]
            have hp1 : GoodP p.next_token := GoodP_next_token p hp
            cases hc2 : p.next_token.current_token with
            | none =>
              simp only [hc2]
              exact ⟨fun e h => (by cases h; decide), fun v p' h => (by cases h)⟩
            | some t2 =>
              simp only [hc2]
              by_cases hk3 : t2.kind = .Colon
              · simp only [hk3, if_pos]
                have hp2 : GoodP p.next_token.next_token := GoodP_next_token _ hp1
                cases hpv : parse_valueF fuel p.next_token.next_token with
                | none =>
                  exact hnone
                | some res =>
                  cases res with
                  | error e =>
                    exact ⟨fun e' h => (by
                        cases h
                        exact (ihv _ hp2).1 e hpv),
                      fun v p' h => (by cases h)⟩
                  | ok vp =>
                    obtain ⟨value, p2⟩ := vp
                    have hgp2 : GoodP p2 := (ihv _ hp2).2 value p2 hpv
                    cases hc3 : p2.current_token with
                    | none =>
                      simp only [hc3]
                      exact ⟨fun e h => (by cases h; decide), fun v p' h => (by cases h)⟩
                    | some t3 =>
                      simp only [hc3]
                      by_cases hk4 : t3.kind = .Comma
                      · simp only [hk4, if_pos]
                        exact ihol _ p2.next_token (GoodP_next_token p2 hgp2)
                      · by_cases hk5 : t3.kind = .CloseBrace
                        · simp only [hk4, hk5, if_pos, if_false]
                          exact ihol _ p2 hgp2
                        · simp only [hk4, hk5, if_false]
                          exact ⟨fun e h => (by cases h; decide), fun v p' h => (by cases h)⟩
              · simp only [hk3, if_false]
                exact ⟨fun e h => (by cases h; decide), fun v p' h => (by cases h)⟩
          · simp only [hk1, hk2, if_false]
            exact ⟨fun e h => (by cases h; exact unexpected_token_ne_ifl _),
              fun v p' h => (by cases h)⟩
    · intro p hp
      simp only [parse_arrayF]
      exact ihal [] p.next_token (GoodP_next_token p hp)
    · intro a p hp
      simp only [array_loopF]
      cases hc : p.current_token with
      | none =>
        simp only [hc]
        exact ⟨fun e h => (by cases h; decide), fun v p' h => (by cases h)⟩
      | some token =>
        simp only [hc]
        by_cases hk1 : token.kind = .CloseBracket
        · simp only [hk1, if_pos]
          exact ⟨fun e h => (by cases h),
            fun v p' h => (by cases h; exact GoodP_next_token p hp)⟩
        · simp only [hk1, if_false]
          cases hpv : parse_valueF fuel p with
          | none =>
            exact hnone
          | some res =>
            cases res with
            | error e =>
              exact ⟨fun e' h => (by
                  cases h
                  exact (ihv _ hp).1 e hpv),
                fun v p' h => (by cases h)⟩
            | ok vp =>
              obtain ⟨value, p2⟩ := vp
              have hgp2 : GoodP p2 := (ihv _ hp).2 value p2 hpv
              cases hc3 : p2.current_token with
              | none =>
                simp only [hc3]
                exact ⟨fun e h => (by cases h; decide), fun v p' h => (by cases h)⟩
              | some t3 =>
                simp only [hc3]
                by_cases hk4 : t3.kind = .Comma
                · simp only [hk4, if_pos]
                  exact ihal _ p2.next_token (GoodP_next_token p2 hgp2)
                · by_cases hk5 : t3.kind = .CloseBracket
                  · simp only [hk4, hk5, if_pos, if_false]
                    exact ihal _ p2 hgp2
                  · simp only [hk4, hk5, if_false]
                    exact ⟨fun e h => (by cases h; decide), fun v p' h => (by cases h)⟩

/-- C4 amended: a `Number` token's text is a maximal nonempty run of
characters accepted by Rust's `char::is_numeric`.  For purely ASCII
inputs these runs are nonnegative ASCII digit runs, the 64-bit-float
conversion succeeds on them, and the malformed-number parse-error branch
is unreachable; but `is_numeric` also accepts non-ASCII numeric
characters (e.g. `½`), for which the conversion fails, so the branch is
reachable in general (`C4_counterexample`). -/
theorem C4_amended_ascii_no_float_error (input : List Char) (ha : asciiOnly input) :
    (∀ t rest, nextToken input = some (t, rest) → t.kind = .Number →
        ∃ s, t.text = some s ∧ s.toList ≠ [] ∧ s.toList.all Char.isDigit = true ∧
          (rustParseF64 s).isSome) ∧
    ∀ fuel, parseF fuel input ≠ some (.error "invalid float literal") := by
  constructor
  · intro t rest h hk
    obtain ⟨_, gt⟩ := nextToken_good input ha t rest h
    obtain ⟨s, hs, hne, hd⟩ := gt hk
    refine ⟨s, hs, hne, hd, ?_⟩
    have hne' : s.data ≠ [] := hne
    have hd' : s.data.all Char.isDigit = true := hd
    simp [rustParseF64, hne, hd, hne', hd']
  · intro fuel hcontra
    have hg0 : GoodP ⟨none, input⟩ := ⟨ha, fun t ht => by cases ht⟩
    have hg1 : GoodP (Parser.next_token ⟨none, input⟩) := GoodP_next_token _ hg0
    have hnf := (parser_no_float_err fuel).2.1 _ hg1
    unfold parseF at hcontra
    cases hr : parse_objectF fuel (Parser.next_token ⟨none, input⟩) with
    | none =>
      rw [hr] at hcontra
      cases hcontra
    | some res =>
      rw [hr] at hcontra
      cases res with
      | error e =>
        simp only [Option.map, Except.map, Option.some.injEq] at hcontra
        exact hnf.1 e hr (by cases hcontra; rfl)
      | ok vp =>
        simp [Except.map] at hcontra

/-- Witness for C4 at a concrete ASCII input. -/
theorem C4_witness :
    parseF 99 "\x7b\"a\": 42\x7d".toList ≠ some (.error "invalid float literal") :=
  (C4_amended_ascii_no_float_error "\x7b\"a\": 42\x7d".toList
    (by unfold asciiOnly; decide)).2 99

/-! ## Claim C8: character-level lemmas for the case maps -/

theorem toNat_ofNat_valid (n : Nat) (h : n < 55296) : (Char.ofNat n).toNat = n := by
  rw [Char.ofNat, dif_pos (Or.inl h)]
  rfl

theorem char_eq_of_toNat {c d : Char} (h : c.toNat = d.toNat) : c = d :=
  Char.ext (UInt32.ext_iff.mpr h)

theorem toLower_toNat (c : Char) :
    (Char.toLower c).toNat =
      if 65 ≤ c.toNat ∧ c.toNat ≤ 90 then c.toNat + 32 else c.toNat := by
  simp only [Char.toLower]
  by_cases h : 65 ≤ c.toNat ∧ c.toNat ≤ 90
  · rw [if_pos ⟨h.1, h.2⟩, if_pos h]
    exact toNat_ofNat_valid _ (by omega)
  · rw [if_neg (by exact h), if_neg h]

theorem toUpper_toNat (c : Char) :
    (Char.toUpper c).toNat =
      if 97 ≤ c.toNat ∧ c.toNat ≤ 122 then c.toNat - 32 else c.toNat := by
  simp only [Char.toUpper]
  by_cases h : 97 ≤ c.toNat ∧ c.toNat ≤ 122
  · rw [if_pos ⟨h.1, h.2⟩, if_pos h]
    exact toNat_ofNat_valid _ (by omega)
  · rw [if_neg (by exact h), if_neg h]

/-- Letters are not whitespace. -/
theorem ws_false_of_range (c : Char) (h1 : 65 ≤ c.toNat) (h2 : c.toNat ≤ 122) :
    rustIsWhitespace c = false := by
  have hv1 : 65 ≤ c.val.toNat := h1
  have hv2 : c.val.toNat ≤ 122 := h2
  have d1 : decide (c.val ≤ 13) = false := decide_eq_false (by
    show ¬ c.val.toNat ≤ (13 : UInt32).toNat
    have ht : (13 : UInt32).toNat = 13 := rfl
    rw [ht]
    omega)
  have d2 : (c.val == 32) = false := beq_eq_false_iff_ne.mpr (by
    intro he
    have h32 : c.val.toNat = 32 := by
      rw [he]
      rfl
    omega)
  have d3 : (c.val == 0x85) = false := beq_eq_false_iff_ne.mpr (by
    intro he
    have h85 : c.val.toNat = 133 := by
      rw [he]
      rfl
    omega)
  have d4 : (c.val == 0xA0) = false := beq_eq_false_iff_ne.mpr (by
    intro he
    have hA0 : c.val.toNat = 160 := by
      rw [he]
      rfl
    omega)
  simp [rustIsWhitespace, d1, d2, d3, d4]

/-- The ASCII case maps preserve whitespace-ness. -/
theorem ws_toLower (c : Char) : rustIsWhitespace (Char.toLower c) = rustIsWhitespace c := by
  by_cases h : 65 ≤ c.toNat ∧ c.toNat ≤ 90
  · have hl : (Char.toLower c).toNat = c.toNat + 32 := by rw [toLower_toNat, if_pos h]
    rw [ws_false_of_range _ (by omega) (by omega), ws_false_of_range c (by omega) (by omega)]
  · have hl : Char.toLower c = c := char_eq_of_toNat (by rw [toLower_toNat, if_neg h])
    rw [hl]

theorem ws_toUpper (c : Char) : rustIsWhitespace (Char.toUpper c) = rustIsWhitespace c := by
  by_cases h : 97 ≤ c.toNat ∧ c.toNat ≤ 122
  · have hl : (Char.toUpper c).toNat = c.toNat - 32 := by rw [toUpper_toNat, if_pos h]
    rw [ws_false_of_range _ (by omega) (by omega), ws_false_of_range c (by omega) (by omega)]
  · have hl : Char.toUpper c = c := char_eq_of_toNat (by rw [toUpper_toNat, if_neg h])
    rw [hl]

theorem toLower_toLower (c : Char) :
    Char.toLower (Char.toLower c) = Char.toLower c := by
  apply char_eq_of_toNat
  by_cases h : 65 ≤ c.toNat ∧ c.toNat ≤ 90
  · have h1 : (Char.toLower c).toNat = c.toNat + 32 := by rw [toLower_toNat, if_pos h]
    rw [toLower_toNat, h1, if_neg (by omega)]
  · have h1 : (Char.toLower c).toNat = c.toNat := by rw [toLower_toNat, if_neg h]
    rw [toLower_toNat, h1, if_neg h]

theorem toUpper_toUpper (c : Char) :
    Char.toUpper (Char.toUpper c) = Char.toUpper c := by
  apply char_eq_of_toNat
  by_cases h : 97 ≤ c.toNat ∧ c.toNat ≤ 122
  · have h1 : (Char.toUpper c).toNat = c.toNat - 32 := by rw [toUpper_toNat, if_pos h]
    rw [toUpper_toNat, h1, if_neg (by omega)]
  · have h1 : (Char.toUpper c).toNat = c.toNat := by rw [toUpper_toNat, if_neg h]
    rw [toUpper_toNat, h1, if_neg h]

theorem toLower_toUpper (c : Char) :
    Char.toLower (Char.toUpper c) = Char.toLower c := by
  apply char_eq_of_toNat
  by_cases h : 97 ≤ c.toNat ∧ c.toNat ≤ 122
  · have h1 : (Char.toUpper c).toNat = c.toNat - 32 := by rw [toUpper_toNat, if_pos h]
    rw [toLower_toNat, h1, if_pos (by omega), toLower_toNat, if_neg (by omega)]
    omega
  · have h1 : Char.toUpper c = c := char_eq_of_toNat (by rw [toUpper_toNat, if_neg h])
    rw [h1]

theorem toUpper_toLower (c : Char) :
    Char.toUpper (Char.toLower c) = Char.toUpper c := by
  apply char_eq_of_toNat
  by_cases h : 65 ≤ c.toNat ∧ c.toNat ≤ 90
  · have h1 : (Char.toLower c).toNat = c.toNat + 32 := by rw [toLower_toNat, if_pos h]
    rw [toUpper_toNat, h1, if_pos (by omega), toUpper_toNat, if_neg (by omega)]
    omega
  · have h1 : Char.toLower c = c := char_eq_of_toNat (by rw [toLower_toNat, if_neg h])
    rw [h1]

/-! ## Claim C8: list- and string-level lemmas for the transforms -/

theorem dropWhile_idem {α : Type} (p : α → Bool) (l : List α) :
    (l.dropWhile p).dropWhile p = l.dropWhile p := by
  induction l with
  | nil => rfl
  | cons c cs ih =>
    by_cases h : p c
    · simp [List.dropWhile_cons, h, ih]
    · simp [List.dropWhile_cons, h]

theorem dropWhile_map_comm (f : Char → Char) (p : Char → Bool)
    (hf : ∀ c, p (f c) = p c) (l : List Char) :
    (l.map f).dropWhile p = (l.dropWhile p).map f := by
  induction l with
  | nil => rfl
  | cons c cs ih =>
    by_cases h : p c
    · simp [List.dropWhile_cons, hf, h, ih]
    · simp [List.dropWhile_cons, hf, h]

/-- A list already stripped of its leading run stays stripped after the
trailing run is removed. -/
theorem dropWhile_rtrim (p : Char → Bool) (l : List Char)
    (h : l.dropWhile p = l) :
    ((l.reverse.dropWhile p).reverse).dropWhile p = (l.reverse.dropWhile p).reverse := by
  cases l with
  | nil => rfl
  | cons c l' =>
    have hc : p c = false := by
      by_contra hcon
      have hc' : p c = true := by revert hcon; cases (p c) <;> simp
      rw [List.dropWhile_cons, if_pos hc'] at h
      have hle := (List.dropWhile_sublist (l := l') p).length_le
      rw [h] at hle
      simp at hle
    rw [List.reverse_cons, List.dropWhile_append]
    by_cases hemp : (l'.reverse.dropWhile p).isEmpty
    · simp only [hemp, if_pos]
      simp [List.dropWhile_cons, hc]
    · simp only [hemp, if_neg, Bool.not_eq_true]
      rw [List.reverse_append]
      simp [List.dropWhile_cons, hc]

theorem toList_mk (l : List Char) : (String.mk l).toList = l := rfl

theorem ts_ts (s : String) : rustTrimStart (rustTrimStart s) = rustTrimStart s := by
  simp only [rustTrimStart, toList_mk, dropWhile_idem]

theorem te_te (s : String) : rustTrimEnd (rustTrimEnd s) = rustTrimEnd s := by
  simp only [rustTrimEnd, toList_mk, List.reverse_reverse, dropWhile_idem]

theorem ts_te_ts (s : String) :
    rustTrimStart (rustTrimEnd (rustTrimStart s)) = rustTrimEnd (rustTrimStart s) := by
  simp only [rustTrimStart, rustTrimEnd, toList_mk]
  rw [dropWhile_rtrim rustIsWhitespace _ (dropWhile_idem _ _)]

theorem ts_tr (s : String) : rustTrimStart (rustTrim s) = rustTrim s := ts_te_ts s

theorem te_tr (s : String) : rustTrimEnd (rustTrim s) = rustTrim s := te_te (rustTrimStart s)

theorem tr_tr (s : String) : rustTrim (rustTrim s) = rustTrim s := by
  show rustTrimEnd (rustTrimStart (rustTrim s)) = rustTrim s
  rw [ts_tr, te_tr]

theorem lo_lo (s : String) : rustToLowercase (rustToLowercase s) = rustToLowercase s := by
  simp only [rustToLowercase, toList_mk, List.map_map]
  rw [show Char.toLower ∘ Char.toLower = Char.toLower from funext toLower_toLower]

theorem up_up (s : String) : rustToUppercase (rustToUppercase s) = rustToUppercase s := by
  simp only [rustToUppercase, toList_mk, List.map_map]
  rw [show Char.toUpper ∘ Char.toUpper = Char.toUpper from funext toUpper_toUpper]

theorem lo_up (s : String) : rustToLowercase (rustToUppercase s) = rustToLowercase s := by
  simp only [rustToLowercase, rustToUppercase, toList_mk, List.map_map]
  rw [show Char.toLower ∘ Char.toUpper = Char.toLower from funext toLower_toUpper]

theorem up_lo (s : String) : rustToUppercase (rustToLowercase s) = rustToUppercase s := by
  simp only [rustToLowercase, rustToUppercase, toList_mk, List.map_map]
  rw [show Char.toUpper ∘ Char.toLower = Char.toUpper from funext toUpper_toLower]

theorem ts_lo (s : String) :
    rustTrimStart (rustToLowercase s) = rustToLowercase (rustTrimStart s) := by
  simp only [rustTrimStart, rustToLowercase, toList_mk]
  rw [dropWhile_map_comm Char.toLower rustIsWhitespace ws_toLower]

theorem ts_up (s : String) :
    rustTrimStart (rustToUppercase s) = rustToUppercase (rustTrimStart s) := by
  simp only [rustTrimStart, rustToUppercase, toList_mk]
  rw [dropWhile_map_comm Char.toUpper rustIsWhitespace ws_toUpper]

theorem te_lo (s : String) :
    rustTrimEnd (rustToLowercase s) = rustToLowercase (rustTrimEnd s) := by
  simp only [rustTrimEnd, rustToLowercase, toList_mk]
  rw [← List.map_reverse, dropWhile_map_comm Char.toLower rustIsWhitespace ws_toLower,
    ← List.map_reverse]

theorem te_up (s : String) :
    rustTrimEnd (rustToUppercase s) = rustToUppercase (rustTrimEnd s) := by
  simp only [rustTrimEnd, rustToUppercase, toList_mk]
  rw [← List.map_reverse, dropWhile_map_comm Char.toUpper rustIsWhitespace ws_toUpper,
    ← List.map_reverse]

theorem tr_lo (s : String) :
    rustTrim (rustToLowercase s) = rustToLowercase (rustTrim s) := by
  show rustTrimEnd (rustTrimStart (rustToLowercase s)) = rustToLowercase (rustTrim s)
  rw [ts_lo, te_lo]
  rfl

theorem tr_up (s : String) :
    rustTrim (rustToUppercase s) = rustToUppercase (rustTrim s) := by
  show rustTrimEnd (rustTrimStart (rustToUppercase s)) = rustToUppercase (rustTrim s)
  rw [ts_up, te_up]
  rfl

theorem applyTrims_idem (b1 b2 b3 : Bool) (s : String) :
    applyTrims b1 b2 b3 (applyTrims b1 b2 b3 s) = applyTrims b1 b2 b3 s := by
  cases b1 <;> cases b2 <;> cases b3 <;>
    simp [applyTrims, ts_ts, te_te, tr_tr, ts_tr, te_tr, ts_te_ts]

theorem applyCase_idem (b4 b5 : Bool) (s : String) :
    applyCase b4 b5 (applyCase b4 b5 s) = applyCase b4 b5 s := by
  cases b4 <;> cases b5 <;> simp [applyCase, lo_lo, up_up, lo_up, up_lo]

theorem applyTrims_applyCase_comm (b1 b2 b3 b4 b5 : Bool) (s : String) :
    applyTrims b1 b2 b3 (applyCase b4 b5 s) = applyCase b4 b5 (applyTrims b1 b2 b3 s) := by
  cases b1 <;> cases b2 <;> cases b3 <;> cases b4 <;> cases b5 <;>
    simp [applyTrims, applyCase, ts_lo, ts_up, te_lo, te_up, tr_lo, tr_up]

/-- Without a custom function, `StringType::transform` on a string is the
case stage after the trim stage. -/
theorem stringTransform_pipe (t : StringType) (ht : t.transformFn = none)
    (key : String) (s : String) :
    t.transform key (.String s) =
      .ok (.String (applyCase t.lowercase t.uppercase
        (applyTrims t.trim t.trim_start t.trim_end s))) := by
  simp only [StringType.transform, ht, applyTrims, applyCase]

/-! ## Claim C8: the number transforms -/

theorem rustFloor_intCast (k : ℤ) : rustFloor (k : ℚ) = (k : ℚ) := by
  simp [rustFloor]

theorem rustCeil_intCast (k : ℤ) : rustCeil (k : ℚ) = (k : ℚ) := by
  simp [rustCeil]

theorem rustRound_intCast (k : ℤ) : rustRound (k : ℚ) = (k : ℚ) := by
  unfold rustRound
  by_cases h : (0 : ℚ) ≤ (k : ℚ)
  · rw [if_pos h]
    have hf : ⌊(k : ℚ) + 1/2⌋ = k := by
      rw [add_comm, Int.floor_add_int]
      norm_num
    rw [hf]
  · rw [if_neg h]
    have hf : ⌈(k : ℚ) - 1/2⌉ = k := by
      rw [sub_eq_add_neg, add_comm, Int.ceil_add_int]
      norm_num
    rw [hf]

/-- The `floor`/`ceil`/`round` stage of `NumberType::transform` as a
composite (proof-layer helper for claim C8). -/
def numChain (b1 b2 b3 : Bool) (n : ℚ) : ℚ :=
  let t1 := if b1 then rustFloor n else n
  let t2 := if b2 then rustCeil t1 else t1
  if b3 then rustRound t2 else t2

theorem numChain_intCast (b1 b2 b3 : Bool) (k : ℤ) :
    numChain b1 b2 b3 (k : ℚ) = (k : ℚ) := by
  cases b1 <;> cases b2 <;> cases b3 <;>
    simp [numChain, rustFloor_intCast, rustCeil_intCast, rustRound_intCast]

theorem rustRound_cast (q : ℚ) : ∃ k : ℤ, rustRound q = (k : ℚ) := by
  unfold rustRound
  by_cases h : (0 : ℚ) ≤ q
  · exact ⟨⌊q + 1/2⌋, by rw [if_pos h]⟩
  · exact ⟨⌈q - 1/2⌉, by rw [if_neg h]⟩

theorem numChain_cast_or_id (b1 b2 b3 : Bool) (n : ℚ) :
    (b1 = false ∧ b2 = false ∧ b3 = false) ∨ ∃ k : ℤ, numChain b1 b2 b3 n = (k : ℚ) := by
  cases b3 with
  | true =>
    right
    obtain ⟨k, hk⟩ := rustRound_cast (if b2 then rustCeil (if b1 then rustFloor n else n)
      else (if b1 then rustFloor n else n))
    exact ⟨k, by simpa [numChain] using hk⟩
  | false =>
    cases b2 with
    | true =>
      right
      exact ⟨⌈if b1 then rustFloor n else n⌉, by simp [numChain, rustCeil]⟩
    | false =>
      cases b1 with
      | true => exact Or.inr ⟨⌊n⌋, by simp [numChain, rustFloor]⟩
      | false => exact Or.inl ⟨rfl, rfl, rfl⟩

theorem numChain_idem (b1 b2 b3 : Bool) (n : ℚ) :
    numChain b1 b2 b3 (numChain b1 b2 b3 n) = numChain b1 b2 b3 n := by
  rcases numChain_cast_or_id b1 b2 b3 n with ⟨h1, h2, h3⟩ | ⟨k, hk⟩
  · subst h1; subst h2; subst h3
    rfl
  · rw [hk, numChain_intCast]

/-- Without a custom function, `NumberType::transform` on a number is the
`floor`/`ceil`/`round` chain. -/
theorem numberTransform_pipe (t : NumberType) (ht : t.transformFn = none)
    (key : String) (n : ℚ) :
    t.transform key (.Number n) = .ok (.Number (numChain t.floor t.ceil t.round n)) := by
  simp only [NumberType.transform, ht, numChain]

/-! ## Claim C8: main theorem -/

/-- C8: each built-in transform pipeline is idempotent: for a
`StringType` rule with no custom function, transforming the transformed
string value yields it unchanged (the trims are idempotent and commute
with the case maps, which are idempotent and absorb one another); and
likewise for a `NumberType` rule configured only with `floor`/`ceil`/
`round`, whose result is an integer that all three operations fix. -/
theorem C8_builtin_transform_idempotent :
    (∀ (t : StringType), t.transformFn = none → ∀ (key : String) (s : String) (w : JSONValue),
        t.transform key (.String s) = .ok w → t.transform key w = .ok w) ∧
    (∀ (t : NumberType), t.transformFn = none → ∀ (key : String) (n : ℚ) (w : JSONValue),
        t.transform key (.Number n) = .ok w → t.transform key w = .ok w) := by
  constructor
  · intro t ht key s w htr
    rw [stringTransform_pipe t ht key s] at htr
    cases htr
    rw [stringTransform_pipe t ht key _]
    rw [applyTrims_applyCase_comm, applyTrims_idem, applyCase_idem]
  · intro t ht key n w htr
    rw [numberTransform_pipe t ht key n] at htr
    cases htr
    rw [numberTransform_pipe t ht key _]
    rw [numChain_idem]

/-- Witness for C8 at a concrete trimming rule and an already-trimmed
string. -/
theorem C8_witness :
    ({ StringType.new with trim := true } : StringType).transform "k" (.String "a") =
      .ok (.String "a") :=
  C8_builtin_transform_idempotent.1 { StringType.new with trim := true } rfl "k" "  a  "
    (.String "a") rfl
